import Mathlib

/-!
# Verification of the broker-variable schema core

A shallow embedding, in Lean 4, of the `broker` package's parameter-schema
core (`BrokerVariable`, `ToSchema`, `fieldNameToLabel`, `ApplyDefaults`,
`CreateJsonSchema`, `ValidateVariables`, `ValidateVariablesAgainstSchema`),
together with theorems checking the natural-language specification of that
core against the code.

Go's dynamically typed JSON-like values (`interface{}`) are embedded as the
inductive `JValue`; Go maps `map[string]interface{}` are embedded as
association lists where a later binding for a key overwrites an earlier
one, exactly mirroring the sequence of map-assignment statements in the
source.  Helpers that live in sibling packages of the repository
(`validation`, `utils`) are not part of the given sources and are modelled
from the spec; each such definition is marked in its doc comment.
-/

namespace Broker

/-- A JSON-like dynamic value, embedding Go's `interface{}` payloads
(strings, booleans, integers, null, arrays and string-keyed objects). -/
inductive JValue where
  | null : JValue
  | bool (b : Bool) : JValue
  | int (n : Int) : JValue
  | str (s : String) : JValue
  | arr (xs : List JValue) : JValue
  | obj (fields : List (String × JValue)) : JValue
deriving Repr

/-- Embedding of Go's `map[string]interface{}` as an association list of
assignments: `set` appends a binding and `get` takes the latest binding,
so a later assignment to an existing key overwrites the earlier one, as
Go map assignment does. -/
abbrev JMap := List (String × JValue)

/-- Go map assignment `m[k] = v`: record the new binding (a later binding
shadows any earlier one under `JMap.get`). -/
def JMap.set (m : JMap) (k : String) (v : JValue) : JMap := m ++ [(k, v)]

/-- Go map lookup `m[k]`: the latest binding for `k`, if any. -/
def JMap.get (m : JMap) (k : String) : Option JValue :=
  (m.reverse.find? (fun p => p.1 == k)).map Prod.snd

/-! ## Label formatter (`fieldNameToLabel`) -/

/-- The separator predicate passed to `strings.FieldsFunc` in
`fieldNameToLabel`: a rune is a separator when it is whitespace, a hyphen,
an underscore or a period. -/
def isFieldSeparator (c : Char) : Bool :=
  c.isWhitespace || c = '-' || c = '_' || c = '.'

/-- Embedding of `strings.FieldsFunc` on the rune sequence: split at separators,
discarding empty components.  `acc` holds the characters of the component
currently being read, in reverse. -/
def fieldsAux : List Char → List Char → List (List Char)
  | [], acc => if acc.isEmpty then [] else [acc.reverse]
  | c :: rest, acc =>
    if isFieldSeparator c then
      (if acc.isEmpty then [] else [acc.reverse]) ++ fieldsAux rest []
    else fieldsAux rest (c :: acc)

/-- Embedding of `strings.FieldsFunc(fieldName, isFieldSeparator)`. -/
def fields (s : String) : List String :=
  (fieldsAux s.data []).map String.mk

/-- The fixed acronym table of `fieldNameToLabel`.  The Go source is a map
with exactly these five (lower-case) keys. -/
def acronyms : List (String × String) :=
  [("id", "ID"), ("uri", "URI"), ("url", "URL"), ("gb", "GB"), ("jdbc", "JDBC")]

/-- Embedding of `strings.ToUpper(c[:1]) + c[1:]`: upper-case the first character of a
component, leave the rest unchanged. -/
def capitalizeFirst (s : String) : String :=
  match s.data with
  | [] => ""
  | c :: rest => String.mk (c.toUpper :: rest)

/-- The loop body of `fieldNameToLabel`: an exact lookup of the whole
component in the acronym table, else first-character capitalization. -/
def componentToLabel (c : String) : String :=
  match acronyms.lookup c with
  | some replace => replace
  | none => capitalizeFirst c

/-- The function `fieldNameToLabel`: split into components, replace or capitalize each
component, join with single spaces. -/
def fieldNameToLabel (fieldName : String) : String :=
  String.intercalate " " ((fields fieldName).map componentToLabel)

/-! ## Dynamic-value rendering (`fmt.Sprintf("%v", ·)`) -/

mutual

/-- Go's `fmt.Sprintf("%v", v)` on the embedded JSON-like values: the string
form used as the sort key for enumerations.  Scalars render as in Go
(`<nil>`, `true`/`false`, decimal integers, the raw string); composite
values render in Go's bracketed style (they cannot actually occur as Go
map keys, so `ToSchema` never sorts by them). -/
def render : JValue → String
  | .null => "<nil>"
  | .bool b => cond b "true" "false"
  | .int n => toString n
  | .str s => s
  | .arr xs => "[" ++ String.intercalate " " (renderList xs) ++ "]"
  | .obj fs => "map[" ++ String.intercalate " " (renderFields fs) ++ "]"

/-- Renders each element of a list of values. -/
def renderList : List JValue → List String
  | [] => []
  | x :: xs => render x :: renderList xs

/-- Renders each `key:value` entry of an object. -/
def renderFields : List (String × JValue) → List String
  | [] => []
  | (k, v) :: fs => (k ++ ":" ++ render v) :: renderFields fs

end

/-- The comparison used to sort enumeration values: ascending by string
representation (the `less` closure of `sort.Slice` in `ToSchema`, with
`≤` in place of `<` to make the relation total). -/
def renderLE (a b : JValue) : Prop := render a ≤ render b

instance : DecidableRel renderLE := fun a b =>
  inferInstanceAs (Decidable (render a ≤ render b))

instance : IsTotal JValue renderLE := ⟨fun a b => le_total (render a) (render b)⟩

instance : IsTrans JValue renderLE := ⟨fun _ _ _ h h' => le_trans h h'⟩

/-- The `sort.Slice` call of `ToSchema`: sort the collected enumeration
values ascending by their string representation. -/
def sortEnum (keys : List JValue) : List JValue := List.insertionSort renderLE keys

/-! ## The variable descriptor and its schema fragment -/

/-- The type `JsonType` is a string type in the source. -/
abbrev JsonType := String

def JsonTypeString : JsonType := "string"

def JsonTypeNumeric : JsonType := "number"

def JsonTypeInteger : JsonType := "integer"

def JsonTypeBoolean : JsonType := "boolean"

/-- The `BrokerVariable` struct.  `Default` is a nullable dynamic value
(Go `interface{}`, `nil` ↦ `none`); `Enum` is the `map[interface{}]string`
of value/friendly-name pairs, embedded as a pair list; `Constraints` is the
`map[string]interface{}` of schema-validation keywords. -/
structure BrokerVariable where
  Required : Bool
  FieldName : String
  «Type» : JsonType
  Details : String
  Default : Option JValue
  Enum : List (JValue × String)
  Constraints : JMap

/-- Modelled from the spec: the `validation` package's schema keyword
constant for the field title (the package is not among the given sources;
spec §6 lists the exact per-field keys `title`, `description`, `type`,
`default`, `enum`). -/
def KeyTitle : String := "title"

/-- Modelled from the spec: the `validation` package's `enum` keyword. -/
def KeyEnum : String := "enum"

/-- Modelled from the spec: the `validation` package's `description`
keyword. -/
def KeyDescription : String := "description"

/-- Modelled from the spec: the `validation` package's `type` keyword. -/
def KeyType : String := "type"

/-- Modelled from the spec: the `validation` package's `default` keyword. -/
def KeyDefault : String := "default"

/-- The method `BrokerVariable.ToSchema`: build the schema fragment by assigning, in
order: the auto-generated title (when `FieldName` is non-empty), every
`Constraints` entry, the sorted enumeration (when `Enum` is non-empty),
the description (when `Details` is non-empty), the type (when `Type` is
non-empty) and the default (when non-nil).  A later assignment overwrites
an earlier binding of the same key (`JMap` semantics). -/
def BrokerVariable.ToSchema (bv : BrokerVariable) : JMap :=
  let schema : JMap := []
  let schema := if bv.FieldName ≠ "" then
    schema.set KeyTitle (.str (fieldNameToLabel bv.FieldName)) else schema
  let schema := bv.Constraints.foldl (fun m kv => m.set kv.1 kv.2) schema
  let schema := if bv.Enum.length > 0 then
    schema.set KeyEnum (.arr (sortEnum (bv.Enum.map Prod.fst))) else schema
  let schema := if bv.Details ≠ "" then
    schema.set KeyDescription (.str bv.Details) else schema
  let schema := if bv.Type ≠ "" then
    schema.set KeyType (.str bv.Type) else schema
  let schema := match bv.Default with
    | some d => schema.set KeyDefault d
    | none => schema
  schema

/-- An optional one-binding fragment: the effect on the schema map of one
conditional assignment statement in `ToSchema`. -/
def optPart (c : Prop) [Decidable c] (k : String) (v : JValue) : JMap :=
  if c then [(k, v)] else []

/-! ## Descriptor validation (`BrokerVariable.Validate`) -/

/-- A field-level descriptor-validation error of the `validation`
package: `BlankField` or `InvalidSchemaType`. -/
inductive FieldError where
  | blankField (field : String)
  | invalidSchemaType (field : String)
deriving DecidableEq, Repr

/-- Modelled from the spec: "blank" means empty or whitespace-only
(§4.1 "empty/whitespace"; the `validation` package is not among the given
sources). -/
def isBlank (s : String) : Bool := s.data.all (·.isWhitespace)

/-- Modelled from the spec: `validation.ErrIfBlank` yields a `BlankField`
error for the named field exactly when the value is blank. -/
def ErrIfBlank (value : String) (field : String) : List FieldError :=
  if isBlank value then [.blankField field] else []

/-- Modelled from the spec: `validation.ErrIfNotJSONSchemaType` yields an
`InvalidSchemaType` error when the value is not one of the four
recognized primitive schema types. -/
def ErrIfNotJSONSchemaType (value : String) (field : String) : List FieldError :=
  if value = JsonTypeString ∨ value = JsonTypeNumeric ∨ value = JsonTypeInteger ∨
      value = JsonTypeBoolean then []
  else [.invalidSchemaType field]

/-- The method `BrokerVariable.Validate`: the three checks' error lists are collected
together (`FieldError.Also` concatenates; no short-circuit). -/
def BrokerVariable.Validate (bv : BrokerVariable) : List FieldError :=
  ErrIfBlank bv.FieldName "field_name"
    ++ ErrIfNotJSONSchemaType bv.Type "type"
    ++ ErrIfBlank bv.Details "details"

/-! ## Schema document (`CreateJsonSchema`) -/

/-- Modelled from the spec: the `utils` string set used for the `required`
names (`NewStringSet`/`Add`/`IsEmpty`/`ToSlice`; the `utils` package is
not among the given sources).  Per spec §4.3 the collection is unique and
`ToSlice` returns the collected names without duplicates in a stable
order; modelled as an insertion-ordered duplicate-free list. -/
structure StringSet where
  elems : List String

/-- Modelled from the spec: `utils.NewStringSet()`, the empty set. -/
def NewStringSet : StringSet := ⟨[]⟩

/-- Modelled from the spec: insertion into the string set (a no-op when
the name is already a member, keeping the slice duplicate-free). -/
def StringSet.Add (s : StringSet) (x : String) : StringSet :=
  if x ∈ s.elems then s else ⟨s.elems ++ [x]⟩

/-- Modelled from the spec: emptiness test of the string set. -/
def StringSet.IsEmpty (s : StringSet) : Bool := s.elems.isEmpty

/-- Modelled from the spec: the collected names, duplicate-free. -/
def StringSet.ToSlice (s : StringSet) : List String := s.elems

/-- The body of the `CreateJsonSchema` loop: one descriptor's effect on
the accumulator, assigning `properties[variable.FieldName] =
variable.ToSchema()` and adding the field name to the `required` set when
`variable.Required`. -/
def schemaStep (acc : StringSet × JMap) («variable» : BrokerVariable) :
    StringSet × JMap :=
  (if «variable».Required then acc.1.Add «variable».FieldName else acc.1,
   acc.2.set «variable».FieldName (.obj «variable».ToSchema))

/-- The loop of `CreateJsonSchema`: fold `schemaStep` over the descriptor
list, starting from the empty set and empty properties. -/
def schemaParts (schemaVariables : List BrokerVariable) : StringSet × JMap :=
  schemaVariables.foldl schemaStep (NewStringSet, [])

/-- The draft-04 schema identifier string emitted in the `$schema` key. -/
def draft04 : String := "http://json-schema.org/draft-04/schema#"

/-- The function `CreateJsonSchema`: the draft-04 document with `$schema`, `type`,
`properties`, and `required` exactly when the required set is non-empty. -/
def CreateJsonSchema (schemaVariables : List BrokerVariable) : JMap :=
  let required := (schemaParts schemaVariables).1
  let properties := (schemaParts schemaVariables).2
  let schema : JMap :=
    [("$schema", .str draft04),
     ("type", .str "object"),
     ("properties", .obj properties)]
  if ¬ required.IsEmpty then
    schema.set "required" (.arr (required.ToSlice.map JValue.str))
  else schema

/-! ## Defaulter (`ApplyDefaults`) -/

/-- The body of the `ApplyDefaults` loop: assign the default when the
field name is absent (Go's comma-ok test) and the default is non-nil. -/
def applyStep (parameters : JMap) (v : BrokerVariable) : JMap :=
  if (parameters.get v.FieldName).isNone && v.Default.isSome then
    parameters.set v.FieldName (v.Default.getD .null)
  else parameters

/-- The function `ApplyDefaults`: for each descriptor in order, when the field name is
absent from the parameters and the default is non-nil, assign the
default. -/

def ApplyDefaults (parameters : JMap) («variables» : List BrokerVariable) : JMap :=
  «variables».foldl applyStep parameters

/-! ## Validator (`ValidateVariables`, `ValidateVariablesAgainstSchema`) -/

/-- Modelled from the spec: the per-message rendering of
`utils.SingleLineErrorFormatter` — each message is made single-line (no
embedded line breaks; the `utils` package is not among the given
sources). -/
def singleLineMessage (s : String) : String :=
  String.mk (s.data.map fun c => if c = '\n' then ' ' else c)

/-- Modelled from the spec: `utils.SingleLineErrorFormatter` concatenates
the single-line renderings of all collected messages with a stable
separator. -/
def SingleLineErrorFormatter (es : List String) : String :=
  String.intercalate "; " (es.map singleLineMessage)

/-- The `go-multierror` aggregate built by
`ValidateVariablesAgainstSchema`: it carries every collected violation
message and renders through its `ErrorFormat`, which the source sets to
`utils.SingleLineErrorFormatter`. -/
structure MultiError where
  Errors : List String

/-- The aggregate's string form (`Error()` with the single-line
formatter installed). -/
def MultiError.Error (m : MultiError) : String := SingleLineErrorFormatter m.Errors

/-- The outcome of `ValidateVariablesAgainstSchema`: the engine's own
processing error returned unchanged, success (`nil`), or the aggregated
violations. -/
inductive ValidationOutcome where
  | engineError (e : String)
  | ok
  | violations (m : MultiError)

/-- The external `gojsonschema` engine, abstracted: on a schema document
and a payload it either fails to process them (`Except.error`) or
returns the violation messages of `result.Errors()` (each already
rendered by `r.String()`). -/
abbrev Engine := JMap → JMap → Except String (List String)

/-- The function `ValidateVariablesAgainstSchema`: return the engine's processing
error as-is; `nil` on zero violations; otherwise the multierror holding
one entry per violation (`errors.New(r.String())` for each), with the
single-line formatter installed. -/
def ValidateVariablesAgainstSchema (engine : Engine) (parameters : JMap)
    (schema : JMap) : ValidationOutcome :=
  match engine schema parameters with
  | .error err => .engineError err
  | .ok resultErrors =>
    if resultErrors.length = 0 then .ok
    else .violations ⟨resultErrors⟩

/-- The function `ValidateVariables`: build the schema from the descriptors, then
validate against it. -/
def ValidateVariables (engine : Engine) (parameters : JMap)
    («variables» : List BrokerVariable) : ValidationOutcome :=
  ValidateVariablesAgainstSchema engine parameters (CreateJsonSchema «variables»)

/-! ## State-passing view of the core

The Go functions receive the descriptor slice and the parameter map by
reference.  To talk about mutation we pass that caller-owned state
explicitly: each operation takes the state and returns the state it
leaves behind together with its result.  `ApplyDefaults` is translated
as the one operation whose out-state differs (it writes the defaulted
payload back); every other operation only reads. -/

/-- The caller-owned mutable objects an operation can reach: the
descriptor list and the parameter payload. -/
structure CoreState where
  «variables» : List BrokerVariable
  parameters : JMap

/-- Embedding of `variables[i].Validate()` lifted to state. -/
def ValidateOp (i : Nat) (s : CoreState) : CoreState × Option (List FieldError) :=
  (s, (s.variables[i]?).map BrokerVariable.Validate)

/-- Embedding of `variables[i].ToSchema()` lifted to state. -/
def ToSchemaOp (i : Nat) (s : CoreState) : CoreState × Option JMap :=
  (s, (s.variables[i]?).map BrokerVariable.ToSchema)

/-- Embedding of `fieldNameToLabel` lifted to state. -/
def FieldNameToLabelOp (name : String) (s : CoreState) : CoreState × String :=
  (s, fieldNameToLabel name)

/-- Embedding of `CreateJsonSchema(variables)` lifted to state. -/
def CreateJsonSchemaOp (s : CoreState) : CoreState × JMap :=
  (s, CreateJsonSchema s.variables)

/-- Embedding of `ValidateVariables(parameters, variables)` lifted to state. -/
def ValidateVariablesOp (engine : Engine) (s : CoreState) :
    CoreState × ValidationOutcome :=
  (s, ValidateVariables engine s.parameters s.variables)

/-- Embedding of `ValidateVariablesAgainstSchema(parameters, schema)` lifted to
state. -/
def ValidateVariablesAgainstSchemaOp (engine : Engine) (schema : JMap)
    (s : CoreState) : CoreState × ValidationOutcome :=
  (s, ValidateVariablesAgainstSchema engine s.parameters schema)

/-- Embedding of `ApplyDefaults(parameters, variables)` lifted to state: the in-place
mutation of the payload becomes the out-state's payload. -/
def ApplyDefaultsOp (s : CoreState) : CoreState :=
  { s with parameters := ApplyDefaults s.parameters s.variables }

/-! ## Derived notions used in the statements -/

/-- The last descriptor in the list bearing a given field name: Go map
assignment in the `CreateJsonSchema` loop keeps the last fragment written
for a repeated name. -/
def lastWithFieldName (descriptors : List BrokerVariable) (f : String) :
    Option BrokerVariable :=
  descriptors.reverse.find? (fun v => v.FieldName == f)

/-- The first applicable default for a field name: the first descriptor
with that name and a non-nil default (the one whose default
`ApplyDefaults` ends up writing for an absent key). -/
def firstDefault (descriptors : List BrokerVariable) (k : String) : Option JValue :=
  (descriptors.find? (fun v => v.FieldName == k && v.Default.isSome)).bind
    (fun v => v.Default)

/-! ## Helper lemmas -/

theorem JMap.get_nil (k : String) : JMap.get [] k = none := rfl

theorem JMap.get_append (a b : JMap) (k : String) :
    JMap.get (a ++ b) k = (JMap.get b k).or (JMap.get a k) := by
  simp only [JMap.get, List.reverse_append, List.find?_append]
  cases List.find? (fun p => p.1 == k) b.reverse <;> simp

theorem JMap.get_set_self (m : JMap) (k : String) (v : JValue) :
    (JMap.set m k v).get k = some v := by
  simp [JMap.set, JMap.get_append, JMap.get]

theorem JMap.get_set_ne (m : JMap) (k k' : String) (v : JValue) (h : k ≠ k') :
    (JMap.set m k' v).get k = m.get k := by
  have : (k' == k) = false := by simp [Ne.symm h]
  simp [JMap.set, JMap.get_append, JMap.get, this]

theorem JMap.get_singleton (k k' : String) (v : JValue) :
    JMap.get [(k', v)] k = if k = k' then some v else none := by
  by_cases h : k = k'
  · subst h; simp [JMap.get]
  · simp [JMap.get, Ne.symm h, h]

theorem get_optPart (c : Prop) [Decidable c] (k k' : String) (v : JValue) :
    JMap.get (optPart c k' v) k = if c ∧ k = k' then some v else none := by
  by_cases hc : c
  · simp [optPart, hc, JMap.get_singleton]
  · simp [optPart, hc, JMap.get]

theorem foldl_set_eq_append (cs : List (String × JValue)) (init : JMap) :
    cs.foldl (fun m kv => m.set kv.1 kv.2) init = init ++ cs := by
  induction cs generalizing init with
  | nil => simp
  | cons kv cs ih =>
    rw [List.foldl_cons, ih]
    simp [JMap.set]

/-- Decomposition: `ToSchema` is the concatenation of the six assignment layers, in
source order. -/
theorem toSchema_decomp (bv : BrokerVariable) :
    bv.ToSchema =
      optPart (bv.FieldName ≠ "") KeyTitle (.str (fieldNameToLabel bv.FieldName))
      ++ bv.Constraints
      ++ optPart (bv.Enum.length > 0) KeyEnum (.arr (sortEnum (bv.Enum.map Prod.fst)))
      ++ optPart (bv.Details ≠ "") KeyDescription (.str bv.Details)
      ++ optPart (bv.Type ≠ "") KeyType (.str bv.Type)
      ++ optPart bv.Default.isSome KeyDefault (bv.Default.getD .null) := by
  simp only [BrokerVariable.ToSchema, foldl_set_eq_append, optPart]
  by_cases h1 : bv.FieldName ≠ "" <;> by_cases h2 : bv.Enum.length > 0 <;>
    by_cases h3 : bv.Details ≠ "" <;> by_cases h4 : bv.Type ≠ "" <;>
    cases bv.Default <;>
    simp [h1, h2, h3, h4, JMap.set, List.append_assoc]

/-- Lookup in the fragment built by `ToSchema`: the later assignment
layers win (`Option.or` is left-biased), so `default` shadows `type`,
which shadows `description`, which shadows `enum`, which shadows any
constraint entry, which shadows the auto-generated title. -/
theorem toSchema_get (bv : BrokerVariable) (k : String) :
    bv.ToSchema.get k =
      (if bv.Default.isSome ∧ k = KeyDefault then bv.Default else none).or
      ((if bv.Type ≠ "" ∧ k = KeyType then some (.str bv.Type) else none).or
      ((if bv.Details ≠ "" ∧ k = KeyDescription then some (.str bv.Details) else none).or
      ((if bv.Enum.length > 0 ∧ k = KeyEnum then
          some (.arr (sortEnum (bv.Enum.map Prod.fst))) else none).or
      ((bv.Constraints.get k).or
      (if bv.FieldName ≠ "" ∧ k = KeyTitle then
          some (.str (fieldNameToLabel bv.FieldName)) else none))))) := by
  rw [toSchema_decomp]
  simp only [JMap.get_append, get_optPart]
  rcases hd : bv.Default with _ | d <;> by_cases hk : k = KeyDefault <;>
    simp [hd, hk]

theorem StringSet.mem_Add (s : StringSet) (x n : String) :
    n ∈ (s.Add x).elems ↔ n ∈ s.elems ∨ n = x := by
  by_cases h : x ∈ s.elems
  · simp only [StringSet.Add, if_pos h]
    constructor
    · exact Or.inl
    · rintro (h' | rfl)
      · exact h'
      · exact h
  · simp [StringSet.Add, h]

theorem StringSet.nodup_Add (s : StringSet) (x : String) (h : s.elems.Nodup) :
    (s.Add x).elems.Nodup := by
  by_cases hx : x ∈ s.elems
  · simpa [StringSet.Add, hx] using h
  · simp [StringSet.Add, hx, List.nodup_append, h]

theorem foldl_schemaStep_snd_get (descriptors : List BrokerVariable)
    (acc : StringSet × JMap) (f : String) :
    (descriptors.foldl schemaStep acc).2.get f =
      ((lastWithFieldName descriptors f).map (fun v => JValue.obj v.ToSchema)).or
        (acc.2.get f) := by
  induction descriptors generalizing acc with
  | nil => simp [lastWithFieldName]
  | cons v vs ih =>
    rw [List.foldl_cons, ih]
    have hstep : (schemaStep acc v).2 = acc.2.set v.FieldName (.obj v.ToSchema) := rfl
    rw [hstep]
    have hlast : lastWithFieldName (v :: vs) f
        = (lastWithFieldName vs f).or
            (if v.FieldName == f then some v else none) := by
      simp only [lastWithFieldName, List.reverse_cons, List.find?_append]
      cases hf : (v.FieldName == f) <;> simp [List.find?, hf]
    rw [hlast]
    by_cases hf : f = v.FieldName
    · subst hf
      rw [JMap.get_set_self]
      cases lastWithFieldName vs v.FieldName <;> simp
    · rw [JMap.get_set_ne _ _ _ _ hf]
      have hbf : (v.FieldName == f) = false := by simp [Ne.symm hf]
      rw [hbf]
      cases lastWithFieldName vs f <;> simp

theorem foldl_schemaStep_fst_mem (descriptors : List BrokerVariable)
    (acc : StringSet × JMap) (n : String) :
    n ∈ (descriptors.foldl schemaStep acc).1.elems ↔
      n ∈ acc.1.elems ∨ ∃ v ∈ descriptors, v.Required = true ∧ v.FieldName = n := by
  induction descriptors generalizing acc with
  | nil => simp
  | cons v vs ih =>
    rw [List.foldl_cons, ih]
    have hstep : (schemaStep acc v).1
        = if v.Required then acc.1.Add v.FieldName else acc.1 := rfl
    rw [hstep]
    by_cases hr : v.Required = true
    · rw [if_pos hr]
      simp only [StringSet.mem_Add, List.mem_cons]
      constructor
      · rintro ((h | rfl) | h)
        · exact Or.inl h
        · exact Or.inr ⟨v, Or.inl rfl, hr, rfl⟩
        · rcases h with ⟨u, hu, h1, h2⟩
          exact Or.inr ⟨u, Or.inr hu, h1, h2⟩
      · rintro (h | ⟨u, hu | hu, h1, h2⟩)
        · exact Or.inl (Or.inl h)
        · subst hu; subst h2; exact Or.inl (Or.inr rfl)
        · exact Or.inr ⟨u, hu, h1, h2⟩
    · have hr' : v.Required = false := by
        cases hb : v.Required
        · rfl
        · exact absurd hb hr
      rw [if_neg hr]
      simp only [List.mem_cons]
      constructor
      · rintro (h | ⟨u, hu, h1, h2⟩)
        · exact Or.inl h
        · exact Or.inr ⟨u, Or.inr hu, h1, h2⟩
      · rintro (h | ⟨u, hu | hu, h1, h2⟩)
        · exact Or.inl h
        · subst hu; rw [h1] at hr'; cases hr'
        · exact Or.inr ⟨u, hu, h1, h2⟩

theorem foldl_schemaStep_fst_nodup (descriptors : List BrokerVariable)
    (acc : StringSet × JMap) (h : acc.1.elems.Nodup) :
    (descriptors.foldl schemaStep acc).1.elems.Nodup := by
  induction descriptors generalizing acc with
  | nil => exact h
  | cons v vs ih =>
    rw [List.foldl_cons]
    refine ih _ ?_
    show (if v.Required then acc.1.Add v.FieldName else acc.1).elems.Nodup
    by_cases hr : v.Required = true
    · rw [if_pos hr]
      exact StringSet.nodup_Add _ _ h
    · rw [if_neg hr]
      exact h

theorem schemaParts_fst_mem (descriptors : List BrokerVariable) (n : String) :
    n ∈ (schemaParts descriptors).1.elems ↔
      ∃ v ∈ descriptors, v.Required = true ∧ v.FieldName = n := by
  rw [schemaParts, foldl_schemaStep_fst_mem]
  simp [NewStringSet]

theorem schemaParts_fst_nodup (descriptors : List BrokerVariable) :
    (schemaParts descriptors).1.elems.Nodup := by
  rw [schemaParts]
  exact foldl_schemaStep_fst_nodup _ _ (by simp [NewStringSet])

theorem schemaParts_fst_empty_iff (descriptors : List BrokerVariable) :
    (schemaParts descriptors).1.elems = [] ↔
      ∀ v ∈ descriptors, v.Required = false := by
  rw [List.eq_nil_iff_forall_not_mem]
  constructor
  · intro h v hv
    cases hb : v.Required
    · rfl
    · exact absurd ((schemaParts_fst_mem descriptors v.FieldName).mpr
        ⟨v, hv, hb, rfl⟩) (h v.FieldName)
  · intro h n hn
    rcases (schemaParts_fst_mem descriptors n).mp hn with ⟨v, hv, hr, _⟩
    rw [h v hv] at hr
    cases hr

theorem schemaParts_snd_get (descriptors : List BrokerVariable) (f : String) :
    (schemaParts descriptors).2.get f =
      (lastWithFieldName descriptors f).map (fun v => JValue.obj v.ToSchema) := by
  rw [schemaParts, foldl_schemaStep_snd_get]
  simp [NewStringSet, JMap.get]

theorem createJsonSchema_get (descriptors : List BrokerVariable) (k : String) :
    (CreateJsonSchema descriptors).get k =
      if k = "required" ∧ (schemaParts descriptors).1.IsEmpty = false then
        some (JValue.arr ((schemaParts descriptors).1.ToSlice.map JValue.str))
      else if k = "$schema" then some (JValue.str draft04)
      else if k = "type" then some (JValue.str "object")
      else if k = "properties" then some (JValue.obj (schemaParts descriptors).2)
      else none := by
  have hbase : ([("$schema", JValue.str draft04), ("type", JValue.str "object"),
      ("properties", JValue.obj (schemaParts descriptors).2)] : JMap)
      = JMap.set (JMap.set (JMap.set [] "$schema" (JValue.str draft04))
          "type" (JValue.str "object")) "properties"
          (JValue.obj (schemaParts descriptors).2) := rfl
  have hget_base : ∀ kk : String,
      JMap.get [("$schema", JValue.str draft04), ("type", JValue.str "object"),
        ("properties", JValue.obj (schemaParts descriptors).2)] kk =
      (if kk = "$schema" then some (JValue.str draft04)
       else if kk = "type" then some (JValue.str "object")
       else if kk = "properties" then some (JValue.obj (schemaParts descriptors).2)
       else none) := by
    intro kk
    rw [hbase]
    by_cases h3 : kk = "properties"
    · subst h3
      rw [JMap.get_set_self]
      simp
    · rw [JMap.get_set_ne _ _ _ _ h3]
      by_cases h2 : kk = "type"
      · subst h2
        rw [JMap.get_set_self]
        simp
      · rw [JMap.get_set_ne _ _ _ _ h2]
        by_cases h1 : kk = "$schema"
        · subst h1
          rw [JMap.get_set_self]
          simp
        · rw [JMap.get_set_ne _ _ _ _ h1]
          simp [h1, h2, h3, JMap.get]
  simp only [CreateJsonSchema]
  by_cases hreq : (schemaParts descriptors).1.IsEmpty = true
  · rw [if_neg (not_not_intro hreq)]
    rw [hget_base k]
    have : ((schemaParts descriptors).1.IsEmpty = false) = False := by
      simp [hreq]
    simp only [this, and_false, if_false]
  · rw [if_pos hreq]
    by_cases hk : k = "required"
    · subst hk
      rw [JMap.get_set_self]
      have : (schemaParts descriptors).1.IsEmpty = false := by
        cases hb : (schemaParts descriptors).1.IsEmpty
        · rfl
        · exact absurd hb hreq
      simp [this]
    · rw [JMap.get_set_ne _ _ _ _ hk, hget_base k]
      simp only [hk, false_and, if_false]

theorem applyDefaults_cons (parameters : JMap) (v : BrokerVariable)
    (vs : List BrokerVariable) :
    ApplyDefaults parameters (v :: vs)
      = ApplyDefaults (applyStep parameters v) vs := rfl

theorem firstDefault_cons (v : BrokerVariable) (vs : List BrokerVariable)
    (k : String) :
    firstDefault (v :: vs) k =
      if (v.FieldName == k && v.Default.isSome) = true then v.Default
      else firstDefault vs k := by
  simp only [firstDefault, List.find?_cons]
  cases hp : (v.FieldName == k && v.Default.isSome) <;> simp [hp]

theorem applyDefaults_get (parameters : JMap) (descriptors : List BrokerVariable)
    (k : String) :
    (ApplyDefaults parameters descriptors).get k =
      (parameters.get k).or (firstDefault descriptors k) := by
  induction descriptors generalizing parameters with
  | nil =>
    show parameters.get k = (parameters.get k).or none
    simp
  | cons v vs ih =>
    rw [applyDefaults_cons, ih, firstDefault_cons]
    by_cases hfk : v.FieldName = k
    · subst hfk
      rcases hd : v.Default with _ | d
      · have hstep : applyStep parameters v = parameters := by
          simp [applyStep, hd]
        rw [hstep]
        simp
      · rcases hpk : parameters.get v.FieldName with _ | w
        · have hstep : applyStep parameters v = parameters.set v.FieldName d := by
            simp [applyStep, hpk, hd]
          rw [hstep, JMap.get_set_self]
          simp
        · have hstep : applyStep parameters v = parameters := by
            simp [applyStep, hpk]
          rw [hstep]
          simp [hpk]
    · have hget : (applyStep parameters v).get k = parameters.get k := by
        unfold applyStep
        split
        · exact JMap.get_set_ne _ _ _ _ (fun h => hfk h.symm)
        · rfl
      have hb : (v.FieldName == k) = false := by simp [hfk]
      rw [hget, hb]
      simp

theorem applyDefaults_noop (descriptors : List BrokerVariable) (parameters : JMap)
    (h : ∀ v ∈ descriptors, v.Default.isSome = true →
      (parameters.get v.FieldName).isSome = true) :
    ApplyDefaults parameters descriptors = parameters := by
  induction descriptors generalizing parameters with
  | nil => rfl
  | cons v vs ih =>
    have hstep : applyStep parameters v = parameters := by
      rcases hd : v.Default with _ | d
      · simp [applyStep, hd]
      · have hs := h v (List.mem_cons_self v vs) (by simp [hd])
        have : (parameters.get v.FieldName).isNone = false := by
          rcases hq : parameters.get v.FieldName with _ | w
          · rw [hq] at hs; cases hs
          · rfl
        simp [applyStep, this]
    rw [applyDefaults_cons, hstep]
    exact ih _ (fun u hu => h u (List.mem_cons_of_mem _ hu))

theorem firstDefault_isSome_of_mem (descriptors : List BrokerVariable)
    (v : BrokerVariable) (hv : v ∈ descriptors) (hd : v.Default.isSome = true) :
    (firstDefault descriptors v.FieldName).isSome = true := by
  have hex : ∃ u ∈ descriptors,
      (u.FieldName == v.FieldName && u.Default.isSome) = true :=
    ⟨v, hv, by simp [hd]⟩
  obtain ⟨u, hu⟩ := Option.isSome_iff_exists.mp (List.find?_isSome.mpr hex)
  have hpu := List.find?_some hu
  have hud : u.Default.isSome = true := by
    cases hB : u.Default.isSome
    · rw [hB, Bool.and_false] at hpu
      cases hpu
    · rfl
  simp [firstDefault, hu, hud]

theorem applyDefaults_idem (parameters : JMap) (descriptors : List BrokerVariable) :
    ApplyDefaults (ApplyDefaults parameters descriptors) descriptors
      = ApplyDefaults parameters descriptors := by
  apply applyDefaults_noop
  intro v hv hd
  rw [applyDefaults_get]
  rcases hp : parameters.get v.FieldName with _ | w
  · simpa using firstDefault_isSome_of_mem descriptors v hv hd
  · simp

theorem sortEnum_sorted (keys : List JValue) :
    List.Sorted renderLE (sortEnum keys) :=
  List.sorted_insertionSort renderLE keys

theorem sortEnum_perm (keys : List JValue) : (sortEnum keys).Perm keys :=
  List.perm_insertionSort renderLE keys

theorem newline_not_mem_singleLineMessage (s : String) :
    '\n' ∉ (singleLineMessage s).data := by
  simp only [singleLineMessage, String.data]
  intro hmem
  rcases List.mem_map.mp hmem with ⟨c, _, hc⟩
  by_cases h : c = '\n'
  · rw [if_pos h] at hc
    cases hc
  · rw [if_neg h] at hc
    exact h hc

/-! ## Claim theorems -/

/-- C1: `ToSchema` builds the fragment by assigning keys in the exact
order title, constraints, enum, description, type, default, each later
assignment overwriting an earlier binding of the same key: lookup of any
key resolves through the layers latest-first (`Option.or` is
left-biased).  In particular a `Constraints` entry named `title` replaces
the auto-generated title, while `Constraints` entries named `enum`,
`description`, `type` or `default` are overwritten by the corresponding
auto-generated value whenever that value is emitted. -/
theorem C1_toSchema_merge_order (bv : BrokerVariable) :
    (∀ k : String,
      bv.ToSchema.get k =
        (if bv.Default.isSome ∧ k = KeyDefault then bv.Default else none).or
        ((if bv.Type ≠ "" ∧ k = KeyType then some (.str bv.Type) else none).or
        ((if bv.Details ≠ "" ∧ k = KeyDescription then
            some (.str bv.Details) else none).or
        ((if bv.Enum.length > 0 ∧ k = KeyEnum then
            some (.arr (sortEnum (bv.Enum.map Prod.fst))) else none).or
        ((bv.Constraints.get k).or
        (if bv.FieldName ≠ "" ∧ k = KeyTitle then
            some (.str (fieldNameToLabel bv.FieldName)) else none))))))
    ∧ ((bv.Constraints.get KeyTitle).isSome →
        bv.ToSchema.get KeyTitle = bv.Constraints.get KeyTitle)
    ∧ (bv.Enum.length > 0 →
        bv.ToSchema.get KeyEnum
          = some (.arr (sortEnum (bv.Enum.map Prod.fst))))
    ∧ (bv.Details ≠ "" →
        bv.ToSchema.get KeyDescription = some (.str bv.Details))
    ∧ (bv.Type ≠ "" → bv.ToSchema.get KeyType = some (.str bv.Type))
    ∧ (∀ d, bv.Default = some d → bv.ToSchema.get KeyDefault = some d) := by
  refine ⟨toSchema_get bv, ?_, ?_, ?_, ?_, ?_⟩
  · intro hc
    obtain ⟨c, hc'⟩ := Option.isSome_iff_exists.mp hc
    rw [toSchema_get bv KeyTitle]
    have h1 : ¬(KeyTitle = KeyDefault) := by decide
    have h2 : ¬(KeyTitle = KeyType) := by decide
    have h3 : ¬(KeyTitle = KeyDescription) := by decide
    have h4 : ¬(KeyTitle = KeyEnum) := by decide
    simp [h1, h2, h3, h4, hc']
  · intro he
    rw [toSchema_get bv KeyEnum]
    have h1 : ¬(KeyEnum = KeyDefault) := by decide
    have h2 : ¬(KeyEnum = KeyType) := by decide
    have h3 : ¬(KeyEnum = KeyDescription) := by decide
    simp [h1, h2, h3, he]
  · intro hd
    rw [toSchema_get bv KeyDescription]
    have h1 : ¬(KeyDescription = KeyDefault) := by decide
    have h2 : ¬(KeyDescription = KeyType) := by decide
    simp [h1, h2, hd]
  · intro ht
    rw [toSchema_get bv KeyType]
    have h1 : ¬(KeyType = KeyDefault) := by decide
    simp [h1, ht]
  · intro d hd
    rw [toSchema_get bv KeyDefault]
    simp [hd]

/-- Witness for C1 at a concrete descriptor: a `Constraints` entry named
`title` overrides the auto-generated title. -/
theorem C1_toSchema_merge_order_witness :
    (BrokerVariable.mk false "instance-id" "string" "The instance" none []
        [("title", JValue.str "Custom")]).ToSchema.get KeyTitle
      = some (JValue.str "Custom") := by
  have h := (C1_toSchema_merge_order
    (BrokerVariable.mk false "instance-id" "string" "The instance" none []
      [("title", JValue.str "Custom")])).2.1 (by rfl)
  rw [h]
  rfl

/-- C3 counterexample: a descriptor with empty `Enum` whose `Constraints`
carry an `enum` entry produces a fragment that does contain an `enum`
key, so "for every BrokerVariable with empty Enum, the fragment contains
no enum key" is false as stated. -/
theorem C3_counterexample :
    (BrokerVariable.mk false "" "" "" none []
        [("enum", JValue.str "x")]).Enum = []
    ∧ (BrokerVariable.mk false "" "" "" none []
        [("enum", JValue.str "x")]).ToSchema.get KeyEnum
      = some (JValue.str "x") :=
  ⟨rfl, rfl⟩

/-- C3 (amended): with non-empty `Enum` the fragment's `enum` key holds
exactly the `Enum` keys sorted ascending by string representation; with
empty `Enum` the enum-emission step contributes nothing, so the `enum`
key is whatever `Constraints` supplied (absent when they supply none);
and for a key distinct from the five auto-generated keywords the
fragment holds exactly the `Constraints` entry, so empty `Constraints`
contribute no keys. -/
theorem C3_enum_sorted (bv : BrokerVariable) (k : String) :
    (bv.ToSchema.get KeyEnum =
        if bv.Enum.length > 0 then
          some (.arr (sortEnum (bv.Enum.map Prod.fst)))
        else bv.Constraints.get KeyEnum)
    ∧ List.Sorted renderLE (sortEnum (bv.Enum.map Prod.fst))
    ∧ (sortEnum (bv.Enum.map Prod.fst)).Perm (bv.Enum.map Prod.fst)
    ∧ (k ≠ KeyTitle → k ≠ KeyEnum → k ≠ KeyDescription → k ≠ KeyType →
        k ≠ KeyDefault → bv.ToSchema.get k = bv.Constraints.get k) := by
  refine ⟨?_, sortEnum_sorted _, sortEnum_perm _, ?_⟩
  · rw [toSchema_get bv KeyEnum]
    have h1 : ¬(KeyEnum = KeyDefault) := by decide
    have h2 : ¬(KeyEnum = KeyType) := by decide
    have h3 : ¬(KeyEnum = KeyDescription) := by decide
    have h4 : ¬(KeyEnum = KeyTitle) := by decide
    by_cases he : bv.Enum.length > 0
    · simp [h1, h2, h3, h4, he]
    · simp [h1, h2, h3, h4, he]
  · intro n1 n2 n3 n4 n5
    rw [toSchema_get bv k]
    simp [n1, n2, n3, n4, n5]

/-- Witness for C3 at a concrete descriptor and a concrete non-keyword
key: the `minimum` constraint passes through to the fragment. -/
theorem C3_enum_sorted_witness :
    (BrokerVariable.mk false "" "" "" none [(JValue.int 10, "ten")]
        [("minimum", JValue.int 1)]).ToSchema.get "minimum"
      = some (JValue.int 1) := by
  have h := (C3_enum_sorted
    (BrokerVariable.mk false "" "" "" none [(JValue.int 10, "ten")]
      [("minimum", JValue.int 1)]) "minimum").2.2.2
    (by decide) (by decide) (by decide) (by decide) (by decide)
  rw [h]
  rfl

/-- C4 counterexample: the acronym lookup is a case-sensitive Go map
access, so the component `Url` is not replaced by the canonical `URL`;
the claim's case-insensitive matching is false as stated. -/
theorem C4_counterexample :
    fieldNameToLabel "Url" = "Url" ∧ fieldNameToLabel "Url" ≠ "URL" := by
  constructor
  · rfl
  · decide

/-- C4 (amended): `fieldNameToLabel` matches each whole component
case-sensitively (exact string equality) against the fixed table
id→ID, uri→URI, url→URL, gb→GB, jdbc→JDBC and substitutes the canonical
acronym on an exact match; a component in any other casing (such as
`Url`) falls through to first-character capitalization.  Matching is on
the whole component, never on a substring. -/
theorem C4_acronym_exact (s : String) :
    (componentToLabel s =
      if s = "id" then "ID"
      else if s = "uri" then "URI"
      else if s = "url" then "URL"
      else if s = "gb" then "GB"
      else if s = "jdbc" then "JDBC"
      else capitalizeFirst s)
    ∧ fieldNameToLabel "instance-id" = "Instance ID"
    ∧ fieldNameToLabel "Url" = "Url"
    ∧ fieldNameToLabel "JDBC" = "JDBC"
    ∧ fieldNameToLabel "myid" = "Myid"
    ∧ fieldNameToLabel "url-id" = "URL ID" := by
  refine ⟨?_, by decide, by decide, by decide, by decide, by decide⟩
  by_cases h1 : s = "id"
  · subst h1; decide
  · rw [if_neg h1]
    by_cases h2 : s = "uri"
    · subst h2; decide
    · rw [if_neg h2]
      by_cases h3 : s = "url"
      · subst h3; decide
      · rw [if_neg h3]
        by_cases h4 : s = "gb"
        · subst h4; decide
        · rw [if_neg h4]
          by_cases h5 : s = "jdbc"
          · subst h5; decide
          · rw [if_neg h5]
            have b1 : (s == "id") = false := by simp [h1]
            have b2 : (s == "uri") = false := by simp [h2]
            have b3 : (s == "url") = false := by simp [h3]
            have b4 : (s == "gb") = false := by simp [h4]
            have b5 : (s == "jdbc") = false := by simp [h5]
            simp [componentToLabel, acronyms, List.lookup, b1, b2, b3, b4, b5]

theorem schemaParts_fst_isEmpty_false_iff (descriptors : List BrokerVariable) :
    (schemaParts descriptors).1.IsEmpty = false ↔
      ∃ v ∈ descriptors, v.Required = true := by
  rw [StringSet.IsEmpty]
  constructor
  · intro h
    rcases hne : (schemaParts descriptors).1.elems with _ | ⟨n, rest⟩
    · rw [hne] at h
      cases h
    · have hn : n ∈ (schemaParts descriptors).1.elems := by
        rw [hne]
        exact List.mem_cons_self _ _
      rcases (schemaParts_fst_mem _ n).mp hn with ⟨v, hv, hr, _⟩
      exact ⟨v, hv, hr⟩
  · rintro ⟨v, hv, hr⟩
    have hmem : v.FieldName ∈ (schemaParts descriptors).1.elems :=
      (schemaParts_fst_mem _ _).mpr ⟨v, hv, hr, rfl⟩
    rcases hne : (schemaParts descriptors).1.elems with _ | _
    · rw [hne] at hmem
      cases hmem
    · rfl

theorem fieldsAux_all_sep (cs : List Char)
    (h : ∀ c ∈ cs, isFieldSeparator c = true) : fieldsAux cs [] = [] := by
  induction cs with
  | nil => rfl
  | cons c rest ih =>
    have hc := h c (List.mem_cons_self _ _)
    simp only [fieldsAux, hc, if_true, List.isEmpty_nil, List.nil_append]
    exact ih (fun u hu => h u (List.mem_cons_of_mem _ hu))

/-- C5: `CreateJsonSchema` emits `$schema` = the draft-04 identifier,
`type` = `object`, and `properties` mapping each field name to its
(latest) `ToSchema` fragment; the `required` key is present iff some
descriptor is `Required`, and then lists exactly the `Required`
descriptors' field names without duplicates, regardless of input order;
the empty list yields empty properties and no `required` key. -/
theorem C5_createJsonSchema (descriptors : List BrokerVariable) :
    ((CreateJsonSchema descriptors).get "$schema" = some (.str draft04))
    ∧ ((CreateJsonSchema descriptors).get "type" = some (.str "object"))
    ∧ ((CreateJsonSchema descriptors).get "properties"
        = some (.obj (schemaParts descriptors).2))
    ∧ (∀ f, (schemaParts descriptors).2.get f
        = (lastWithFieldName descriptors f).map (fun v => JValue.obj v.ToSchema))
    ∧ (((CreateJsonSchema descriptors).get "required").isSome
        ↔ ∃ v ∈ descriptors, v.Required = true)
    ∧ ((∃ v ∈ descriptors, v.Required = true) →
        (CreateJsonSchema descriptors).get "required"
          = some (.arr ((schemaParts descriptors).1.elems.map JValue.str)))
    ∧ (schemaParts descriptors).1.elems.Nodup
    ∧ (∀ n, n ∈ (schemaParts descriptors).1.elems
        ↔ ∃ v ∈ descriptors, v.Required = true ∧ v.FieldName = n)
    ∧ CreateJsonSchema []
        = [("$schema", .str draft04), ("type", .str "object"),
           ("properties", .obj [])] := by
  have d1 : ¬("$schema" = "required") := by decide
  have d2 : ¬("type" = "required") := by decide
  have d3 : ¬("type" = "$schema") := by decide
  have d4 : ¬("properties" = "required") := by decide
  have d5 : ¬("properties" = "$schema") := by decide
  have d6 : ¬("properties" = "type") := by decide
  have d7 : ¬("required" = "$schema") := by decide
  have d8 : ¬("required" = "type") := by decide
  have d9 : ¬("required" = "properties") := by decide
  refine ⟨?_, ?_, ?_, schemaParts_snd_get descriptors, ?_, ?_,
    schemaParts_fst_nodup descriptors, schemaParts_fst_mem descriptors, rfl⟩
  · rw [createJsonSchema_get]
    simp [d1]
  · rw [createJsonSchema_get]
    simp [d2, d3]
  · rw [createJsonSchema_get]
    simp [d4, d5, d6]
  · rw [createJsonSchema_get]
    rw [← schemaParts_fst_isEmpty_false_iff]
    by_cases h : (schemaParts descriptors).1.IsEmpty = false
    · simp [h]
    · simp [h, d7, d8, d9]
  · intro hex
    have h : (schemaParts descriptors).1.IsEmpty = false :=
      (schemaParts_fst_isEmpty_false_iff descriptors).mpr hex
    rw [createJsonSchema_get]
    simp [h, StringSet.ToSlice]

/-- Witness for C5 at one concrete required descriptor: the document's
`required` list holds exactly that field name. -/
theorem C5_createJsonSchema_witness :
    (CreateJsonSchema
        [BrokerVariable.mk true "size" "integer" "Size in GB" none [] []]).get
      "required" = some (JValue.arr [JValue.str "size"]) := by
  have h := (C5_createJsonSchema
    [BrokerVariable.mk true "size" "integer" "Size in GB" none [] []]).2.2.2.2.2.1
    ⟨_, List.mem_cons_self _ _, rfl⟩
  rw [h]
  rfl

/-- C6: `ApplyDefaults` fills exactly the absent keys that have an
applicable default (the first declared one), never overwrites a key that
is already present — whatever its value — and is idempotent. -/
theorem C6_applyDefaults (parameters : JMap) (descriptors : List BrokerVariable)
    (k : String) :
    ((ApplyDefaults parameters descriptors).get k
        = (parameters.get k).or (firstDefault descriptors k))
    ∧ (∀ w, parameters.get k = some w →
        (ApplyDefaults parameters descriptors).get k = some w)
    ∧ (ApplyDefaults (ApplyDefaults parameters descriptors) descriptors
        = ApplyDefaults parameters descriptors) := by
  refine ⟨applyDefaults_get _ _ _, ?_, applyDefaults_idem _ _⟩
  intro w hw
  rw [applyDefaults_get, hw]
  rfl

/-- Witness for C6 at a concrete payload: a present key keeps its value
even though a descriptor declares a default for it. -/
theorem C6_applyDefaults_witness :
    (ApplyDefaults [("a", JValue.int 1)]
        [BrokerVariable.mk false "a" "" "" (some (JValue.int 9)) [] []]).get "a"
      = some (JValue.int 1) :=
  (C6_applyDefaults [("a", JValue.int 1)]
    [BrokerVariable.mk false "a" "" "" (some (JValue.int 9)) [] []] "a").2.1
    (JValue.int 1) rfl

/-- C7: `fieldNameToLabel` is pure and deterministic (it is a function);
`instance-id` maps to `Instance ID`, `jdbc_url` to `JDBC URL`, the empty
string to itself, any separator-only input to the empty string;
non-acronym components get exactly their first character upper-cased with
the rest unchanged, and components are joined with single spaces. -/
theorem C7_fieldNameToLabel (s : String) :
    fieldNameToLabel "instance-id" = "Instance ID"
    ∧ fieldNameToLabel "jdbc_url" = "JDBC URL"
    ∧ fieldNameToLabel "" = ""
    ∧ ((∀ c ∈ s.data, isFieldSeparator c = true) → fieldNameToLabel s = "")
    ∧ (∀ c cs, capitalizeFirst (String.mk (c :: cs)) = String.mk (c.toUpper :: cs))
    ∧ fieldNameToLabel "fooBAR-baz qux" = "FooBAR Baz Qux" := by
  refine ⟨by decide, by decide, rfl, ?_, fun c cs => rfl, by decide⟩
  intro h
  show String.intercalate " " (((fieldsAux s.data []).map String.mk).map
    componentToLabel) = ""
  rw [fieldsAux_all_sep s.data h]
  rfl

/-- Witness for C7 at a concrete separator-only input. -/
theorem C7_fieldNameToLabel_witness : fieldNameToLabel "-_. " = "" :=
  (C7_fieldNameToLabel "-_. ").2.2.2.1 (by decide)

/-- C8: `Validate` collects all applicable field-level errors in one
pass: a `BlankField` error for `field_name` exactly when `FieldName` is
blank, a `BlankField` error for `details` exactly when `Details` is
blank — independent of every other field — and an `InvalidSchemaType`
error exactly when `Type` is not one of string, number, integer,
boolean. -/
theorem C8_validate_all_errors (bv : BrokerVariable) :
    (FieldError.blankField "field_name" ∈ bv.Validate
        ↔ isBlank bv.FieldName = true)
    ∧ (FieldError.blankField "details" ∈ bv.Validate
        ↔ isBlank bv.Details = true)
    ∧ (FieldError.invalidSchemaType "type" ∈ bv.Validate ↔
        ¬(bv.Type = JsonTypeString ∨ bv.Type = JsonTypeNumeric ∨
          bv.Type = JsonTypeInteger ∨ bv.Type = JsonTypeBoolean)) := by
  have dne : ¬(("field_name" : String) = "details") := by decide
  have dne' : ¬(("details" : String) = "field_name") := by decide
  by_cases b1 : isBlank bv.FieldName = true <;>
  by_cases b2 : bv.Type = JsonTypeString ∨ bv.Type = JsonTypeNumeric ∨
      bv.Type = JsonTypeInteger ∨ bv.Type = JsonTypeBoolean <;>
  by_cases b3 : isBlank bv.Details = true <;>
  simp [BrokerVariable.Validate, ErrIfBlank, ErrIfNotJSONSchemaType,
    b1, b2, b3, dne, dne']

/-- C9: every operation leaves the caller's descriptor list and payload
unchanged, except `ApplyDefaults`, which writes only the payload and
leaves the descriptor list unchanged. -/
theorem C9_frame (s : CoreState) (i : Nat) (name : String) (engine : Engine)
    (schema : JMap) :
    ((ValidateOp i s).1 = s)
    ∧ ((ToSchemaOp i s).1 = s)
    ∧ ((FieldNameToLabelOp name s).1 = s)
    ∧ ((CreateJsonSchemaOp s).1 = s)
    ∧ ((ValidateVariablesOp engine s).1 = s)
    ∧ ((ValidateVariablesAgainstSchemaOp engine schema s).1 = s)
    ∧ ((ApplyDefaultsOp s).variables = s.variables) :=
  ⟨rfl, rfl, rfl, rfl, rfl, rfl, rfl⟩

/-- C10: with repeated field names, `properties` keeps exactly the last
duplicate's fragment (Go map assignment in the loop), and the field name
occurs at most once in the `required` collection, being a member exactly
when some duplicate is `Required`. -/
theorem C10_duplicate_field_names (descriptors : List BrokerVariable)
    (f : String) :
    ((CreateJsonSchema descriptors).get "properties"
        = some (.obj (schemaParts descriptors).2))
    ∧ ((schemaParts descriptors).2.get f
        = (lastWithFieldName descriptors f).map (fun v => JValue.obj v.ToSchema))
    ∧ ((schemaParts descriptors).1.elems.count f ≤ 1)
    ∧ (f ∈ (schemaParts descriptors).1.elems
        ↔ ∃ v ∈ descriptors, v.Required = true ∧ v.FieldName = f) := by
  have d4 : ¬("properties" = "required") := by decide
  have d5 : ¬("properties" = "$schema") := by decide
  have d6 : ¬("properties" = "type") := by decide
  refine ⟨?_, schemaParts_snd_get descriptors f, ?_,
    schemaParts_fst_mem descriptors f⟩
  · rw [createJsonSchema_get]
    simp [d4, d5, d6]
  · exact List.nodup_iff_count_le_one.mp (schemaParts_fst_nodup descriptors) f

/-- C2: `ValidateVariablesAgainstSchema` returns the engine's processing
error unchanged (a distinct outcome, never merged into the aggregate),
succeeds exactly when the engine reports zero violations, and otherwise
returns one aggregate carrying exactly one entry per violation, rendered
by the single-line formatter (each rendered message has no embedded line
break). -/
theorem C2_validate_against_schema (engine : Engine) (parameters schema : JMap) :
    (∀ e, engine schema parameters = .error e →
        ValidateVariablesAgainstSchema engine parameters schema = .engineError e)
    ∧ (ValidateVariablesAgainstSchema engine parameters schema = .ok
        ↔ engine schema parameters = .ok [])
    ∧ (∀ msgs, engine schema parameters = .ok msgs → msgs ≠ [] →
        ValidateVariablesAgainstSchema engine parameters schema
          = .violations ⟨msgs⟩)
    ∧ (∀ msgs, MultiError.Error ⟨msgs⟩
        = String.intercalate "; " (msgs.map singleLineMessage))
    ∧ (∀ m : String, '\n' ∉ (singleLineMessage m).data) := by
  refine ⟨?_, ?_, ?_, fun msgs => rfl, newline_not_mem_singleLineMessage⟩
  · intro e he
    simp [ValidateVariablesAgainstSchema, he]
  · rcases hres : engine schema parameters with e | msgs
    · simp [ValidateVariablesAgainstSchema, hres]
    · rcases msgs with _ | ⟨m, ms⟩
      · simp [ValidateVariablesAgainstSchema, hres]
      · simp [ValidateVariablesAgainstSchema, hres]
  · intro msgs hres hne
    have hlen : ¬(msgs.length = 0) := by
      simpa [List.length_eq_zero] using hne
    simp [ValidateVariablesAgainstSchema, hres, hlen]

/-- Witness for C2 with a concrete engine outcome of two violations: the
result is the aggregate of exactly those two messages. -/
theorem C2_validate_against_schema_witness :
    ValidateVariablesAgainstSchema (fun _ _ => Except.ok ["a\nb", "c"]) [] []
      = ValidationOutcome.violations ⟨["a\nb", "c"]⟩ :=
  (C2_validate_against_schema (fun _ _ => Except.ok ["a\nb", "c"]) [] []).2.2.1
    ["a\nb", "c"] rfl (by decide)

end Broker
